import Mathlib

/-
Verification of the alias-resolution subsystem of HeimdaLLM
(heimdallm/bifrosts/sql/visitors/aliases.py) together with the validator
composition contract of the SQL Bifrost.

The embedding mirrors the Python code:

* `FqColumn` is the value `FqColumn(table=..., column=...)`.
* Python dicts are embedded as association lists (`Map k v`) with
  insertion-order-preserving update (`mset`), lookup (`mget`) and
  `setdefault` (`msetdefault`), matching dict semantics.
* `_QueryAliases` becomes `Scope`; the collector state (`AliasCollector`)
  becomes `CState`, holding the scope registry keyed by the query node id
  and the collector-level `_selected_table` attribute that the
  `selected_table` visitor method assigns on `self`.
* Visitor methods become functions on `Scope` / `CState`.  A method that
  raises (the `RuntimeError` in `_alias_scope`, or the `AttributeError`
  from calling `.add` on a `None` entry of `_aliased_columns`) returns
  `none`.
* The identifier-extraction helpers (`get_identifier`,
  `is_count_function`, `find_data("fq_column")`) live outside this
  subsystem; the embedding takes their results as inputs: the extracted
  table/alias strings, an `isCount : Bool`, and the list of
  (table, column) pairs of the fully qualified column nodes found inside
  an aliased expression, in document order.
-/

/-- One fully qualified column value: the `FqColumn` record with a `table`
and a `column` field.  Equality is by value, as in the Python class. -/
structure FqColumn where
  table : String
  column : String
deriving DecidableEq, Repr

/-- Association-list embedding of a Python dict (keys in insertion order). -/
abbrev Map (κ β : Type) : Type := List (κ × β)

/-- Dict lookup: `m.get(k)` / `m[k]` presence. -/
def mget {κ β : Type} [DecidableEq κ] (m : Map κ β) (k : κ) : Option β :=
  match m with
  | [] => none
  | (k', v) :: rest => if k' = k then some v else mget rest k

/-- Dict assignment `m[k] = v`: overwrite in place if the key is present
(keeping its position, as Python dicts do), otherwise append. -/
def mset {κ β : Type} [DecidableEq κ] (m : Map κ β) (k : κ) (v : β) : Map κ β :=
  match m with
  | [] => [(k, v)]
  | (k', v') :: rest => if k' = k then (k, v) :: rest else (k', v') :: mset rest k v

/-- Dict `m.setdefault(k, d)`: insert `d` only when `k` is absent. -/
def msetdefault {κ β : Type} [DecidableEq κ] (m : Map κ β) (k : κ) (d : β) : Map κ β :=
  if (mget m k).isSome then m else m ++ [(k, d)]

/-- `_QueryAliases`: the alias scope of one query.  `aliased_columns` values
are `some s` for a set of fully qualified columns and `none` for the Python
`None` marker of a non-column (expression) alias; a key that is absent is a
key the defaultdict has not been asked for yet.  `selected_table` is the
`_selected_table` field initialized in `_QueryAliases.__init__` (and never
assigned afterwards by any visitor method). -/
structure Scope where
  aliased_tables : Map String String
  aliased_columns : Map String (Option (Finset FqColumn))
  selected_table : Option String
  subquery_aliases : Map String Nat
deriving DecidableEq

/-- A fresh `_QueryAliases()` object. -/
def emptyScope : Scope :=
  { aliased_tables := []
    aliased_columns := []
    selected_table := none
    subquery_aliases := [] }

/-- `_resolve_table` restricted to a known scope: a single
`aliases._aliased_tables.get(table, table)` lookup. -/
def resolveTable (s : Scope) (table : String) : String :=
  (mget s.aliased_tables table).getD table

/-- The backfill rewrite applied by `aliased_table` to each recorded
`FqColumn`: if its `table` field equals the alias, it is set to the
authoritative table name; otherwise it is left as it is. -/
def backfillFq (aname table : String) (fq : FqColumn) : FqColumn :=
  if fq.table = aname then { fq with table := table } else fq

/-- `AliasCollector.aliased_table` on its scope: record
`_aliased_tables[aname] = table_name`, then rewrite the `table` field of
every already recorded column whose `table` equals the alias (the `None`
and empty entries are skipped by the `if fq_columns:` test, which for sets
changes nothing). -/
def aliased_table (table_name aname : String) (s : Scope) : Scope :=
  { s with
    aliased_tables := mset s.aliased_tables aname table_name
    aliased_columns :=
      s.aliased_columns.map
        (fun kv => (kv.1, kv.2.map (Finset.image (backfillFq aname table_name)))) }

/-- `AliasCollector.derived_table` on its scope: record
`_subquery_aliases[alias_name] = subquery.meta.id`. -/
def derived_table (alias_name : String) (subquery_id : Nat) (s : Scope) : Scope :=
  { s with subquery_aliases := mset s.subquery_aliases alias_name subquery_id }

/-- The set of fully qualified columns an `aliased_column` visit inserts:
one per `fq_column` node found in the aliased expression, its table part
resolved by the single-step `_resolve_table` lookup. -/
def resolvedRefs (s : Scope) (refs : List (String × String)) : Finset FqColumn :=
  (refs.map (fun rc => FqColumn.mk (resolveTable s rc.1) rc.2)).toFinset

/-- `AliasCollector.aliased_column` on its scope.  A count-style expression
records the `None` marker.  Otherwise each `fq_column` reference is
resolved and added to `_aliased_columns[alias_name]`; indexing the
defaultdict creates an empty set if the key is absent, and if the stored
entry is the `None` marker the `.add` call on it raises (embedded as
`none`).  If no reference was found, the entry is set to the `None`
marker. -/
def aliased_column (isCount : Bool) (refs : List (String × String))
    (alias_name : String) (s : Scope) : Option Scope :=
  if isCount then
    some { s with aliased_columns := mset s.aliased_columns alias_name none }
  else
    match refs with
    | [] => some { s with aliased_columns := mset s.aliased_columns alias_name none }
    | _ :: _ =>
      match mget s.aliased_columns alias_name with
      | some none => none
      | some (some prev) =>
        some { s with
          aliased_columns :=
            mset s.aliased_columns alias_name (some (prev ∪ resolvedRefs s refs)) }
      | none =>
        some { s with
          aliased_columns :=
            mset s.aliased_columns alias_name (some (resolvedRefs s refs)) }

/-- One ancestor on a node's `meta.parent` chain: its grammar rule tag
(`data`) and its `meta.id`. -/
structure PNode where
  data : String
  id : Nat
deriving DecidableEq

/-- The scope id `_alias_scope` walks to: the id of the nearest ancestor
whose `data` is the string "full_query"; `none` embeds the
`RuntimeError("could not find wrapping query for node")`. -/
def aliasScopeId (chain : List PNode) : Option Nat :=
  match chain with
  | [] => none
  | p :: rest => if p.data = "full_query" then some p.id else aliasScopeId rest

/-- `AliasCollector.__init__` plus the collector-level `_selected_table`
attribute that `selected_table` assigns on `self`. -/
structure CState where
  query_aliases : Map Nat Scope
  collector_selected_table : Option String
deriving DecidableEq

/-- `_alias_scope` including its side effect: find the nearest wrapping
"full_query" ancestor and `setdefault` its registry entry, returning the
scope id and the updated registry. -/
def aliasScope (reg : Map Nat Scope) (chain : List PNode) :
    Option (Nat × Map Nat Scope) :=
  (aliasScopeId chain).map (fun sid => (sid, msetdefault reg sid emptyScope))

/-- One visitor event of the collector, with the inputs the lark visitor
would hand it: the node's ancestor chain and the extracted identifiers. -/
inductive COp where
  | tableOp (chain : List PNode) (table_name aname : String)
  | columnOp (chain : List PNode) (isCount : Bool)
      (refs : List (String × String)) (alias_name : String)
  | derivedOp (chain : List PNode) (alias_name : String) (subquery_id : Nat)
  | fullQuery (sid : Nat)
  | selTable (table_name : String)

/-- Dispatch of one visitor event on the collector state.  The scoped
events look up their scope through `_alias_scope` and update only that
registry entry; `full_query` runs the registry `setdefault`;
`selected_table` assigns `self._selected_table` on the collector. -/
def applyC (op : COp) (st : CState) : Option CState :=
  match op with
  | .tableOp chain table_name aname =>
    (aliasScope st.query_aliases chain).map (fun sr =>
      let sc := aliased_table table_name aname ((mget sr.2 sr.1).getD emptyScope)
      { st with query_aliases := mset sr.2 sr.1 sc })
  | .columnOp chain isCount refs alias_name =>
    (aliasScope st.query_aliases chain).bind (fun sr =>
      (aliased_column isCount refs alias_name ((mget sr.2 sr.1).getD emptyScope)).map
        (fun sc => { st with query_aliases := mset sr.2 sr.1 sc }))
  | .derivedOp chain alias_name subquery_id =>
    (aliasScope st.query_aliases chain).map (fun sr =>
      let sc := derived_table alias_name subquery_id ((mget sr.2 sr.1).getD emptyScope)
      { st with query_aliases := mset sr.2 sr.1 sc })
  | .fullQuery sid =>
    some { st with query_aliases := msetdefault st.query_aliases sid emptyScope }
  | .selTable table_name =>
    some { st with collector_selected_table := some table_name }

/-- Modelled from the spec: the Constraint Validator contract.  The
validator class itself (heimdallm/constraints) is not among the excerpted
sources; the spec describes it as a pure predicate over the identifiers
and structural elements a query touches, so it is abstracted to one
boolean-valued `allowed` predicate over an element type. -/
structure ConstraintValidator (α : Type) where
  allowed : α → Bool

/-- Modelled from the spec: a validator fully accepts a query when every
identifier and structural element the query touches is allowed. -/
def validatorAccepts {α : Type} (v : ConstraintValidator α) (touched : List α) : Bool :=
  touched.all v.allowed

/-- Modelled from the spec: the Bifrost validation loop over its
constraint validators (heimdallm/bifrosts/sql/bifrost.py is not among the
excerpted sources; the Bifrost docstring states that only one validator
needs to succeed for validation to pass).  A query is accepted exactly
when some supplied validator fully accepts it. -/
def bifrostValidate {α : Type} (vs : List (ConstraintValidator α))
    (touched : List α) : Bool :=
  vs.any (fun v => validatorAccepts v touched)

/-- The set of columns recorded under an alias before a visit: the stored
set if the entry holds one, otherwise the empty set (the defaultdict's
fresh value). -/
def colsBefore (s : Scope) (a : String) : Finset FqColumn :=
  match mget s.aliased_columns a with
  | some (some fs) => fs
  | _ => ∅

/-- Follows the spec's words (for comparison with the code's
`_resolve_table`): resolve a table name through the scope's aliased
tables transitively, following an alias-of-alias chain as far as it is
known; the fuel argument bounds the walk. -/
def resolveTableSpec (tables : Map String String) : Nat → String → String
  | 0, t => t
  | fuel + 1, t =>
    match mget tables t with
    | none => t
    | some t' => resolveTableSpec tables fuel t'

/-- A validator that allows every element (like the permissive test
constraints). -/
def cvAllowAll : ConstraintValidator String := ⟨fun _ => true⟩

/-- A validator that rejects every element. -/
def cvDenyAll : ConstraintValidator String := ⟨fun _ => false⟩

/-
Basic lemmas about the dict embedding.
-/

theorem mget_mset_self {κ β : Type} [DecidableEq κ] (m : Map κ β) (k : κ) (v : β) :
    mget (mset m k v) k = some v := by
  induction m with
  | nil => simp [mset, mget]
  | cons kv rest ih =>
    obtain ⟨k', v'⟩ := kv
    by_cases h : k' = k
    · subst h; simp [mset, mget]
    · simp [mset, mget, h, ih]

theorem mget_mset_of_ne {κ β : Type} [DecidableEq κ] (m : Map κ β) (k k' : κ) (v : β)
    (h : k ≠ k') : mget (mset m k v) k' = mget m k' := by
  induction m with
  | nil => simp [mset, mget, h]
  | cons kv rest ih =>
    obtain ⟨a, b⟩ := kv
    by_cases ha : a = k
    · subst ha
      simp [mset, mget, h]
    · simp [mset, mget, ha, ih]

theorem mget_append {κ β : Type} [DecidableEq κ] (m₁ m₂ : Map κ β) (k : κ) :
    mget (m₁ ++ m₂) k = ((mget m₁ k).rec (mget m₂ k) (fun v => some v)) := by
  induction m₁ with
  | nil => simp [mget]
  | cons kv rest ih =>
    obtain ⟨a, b⟩ := kv
    by_cases ha : a = k
    · simp [mget, ha]
    · simp [mget, ha, ih]

theorem mget_msetdefault_self {κ β : Type} [DecidableEq κ] (m : Map κ β) (k : κ) (d : β) :
    mget (msetdefault m k d) k = some ((mget m k).getD d) := by
  unfold msetdefault
  cases h : mget m k with
  | none => simp [h, mget_append, mget]
  | some v => simp [h]

theorem mget_msetdefault_of_ne {κ β : Type} [DecidableEq κ] (m : Map κ β) (k k' : κ)
    (d : β) (h : k ≠ k') : mget (msetdefault m k d) k' = mget m k' := by
  unfold msetdefault
  cases hm : mget m k with
  | none =>
    cases hk' : mget m k' with
    | none => simp [hm, mget_append, hk', mget, h]
    | some v => simp [hm, mget_append, hk']
  | some v => simp [hm]

theorem mget_map {κ β γ : Type} [DecidableEq κ] (m : Map κ β) (f : β → γ) (k : κ) :
    mget (m.map (fun kv => (kv.1, f kv.2))) k = (mget m k).map f := by
  induction m with
  | nil => simp [mget]
  | cons kv rest ih =>
    obtain ⟨a, b⟩ := kv
    by_cases ha : a = k
    · simp [mget, ha]
    · simp [mget, ha, ih]

theorem map_mset {κ β γ : Type} [DecidableEq κ] (m : Map κ β) (f : β → γ) (k : κ) (v : β) :
    (mset m k v).map (fun kv => (kv.1, f kv.2)) = mset (m.map (fun kv => (kv.1, f kv.2))) k (f v) := by
  induction m with
  | nil => simp [mset]
  | cons kv rest ih =>
    obtain ⟨a, b⟩ := kv
    by_cases ha : a = k
    · subst ha; simp [mset]
    · simp [mset, ha, ih]

theorem mget_isSome_mset {κ β : Type} [DecidableEq κ] (m : Map κ β) (k k' : κ) (v : β)
    (h : (mget m k').isSome) : (mget (mset m k v) k').isSome := by
  by_cases hk : k = k'
  · subst hk; simp [mget_mset_self]
  · rwa [mget_mset_of_ne m k k' v hk]

theorem mget_isSome_msetdefault {κ β : Type} [DecidableEq κ] (m : Map κ β) (k k' : κ)
    (d : β) (h : (mget m k').isSome) : (mget (msetdefault m k d) k').isSome := by
  by_cases hk : k = k'
  · subst hk; simp [mget_msetdefault_self]
  · rwa [mget_msetdefault_of_ne m k k' d hk]

theorem mget_mem {κ β : Type} [DecidableEq κ] {m : Map κ β} {k : κ} {v : β}
    (h : mget m k = some v) : (k, v) ∈ m := by
  induction m with
  | nil => simp [mget] at h
  | cons kv rest ih =>
    obtain ⟨a, b⟩ := kv
    by_cases ha : a = k
    · subst ha
      simp [mget] at h
      simp [h]
    · simp [mget, ha] at h
      simp [ih h]

theorem msetdefault_of_isSome {κ β : Type} [DecidableEq κ] (m : Map κ β) (k : κ) (d : β)
    (h : (mget m k).isSome) : msetdefault m k d = m := by
  unfold msetdefault
  simp [h]

/-- Closed form of `aliased_column`: the count and the no-reference cases
record the `None` marker, a `None` entry hit by references raises, and
otherwise the resolved references are added to whatever set was already
recorded. -/
theorem aliased_column_eq (isCount : Bool) (refs : List (String × String))
    (alias_name : String) (s : Scope) :
    aliased_column isCount refs alias_name s =
      if isCount = true ∨ refs = [] then
        some { s with aliased_columns := mset s.aliased_columns alias_name none }
      else if mget s.aliased_columns alias_name = some none then none
      else
        some { s with
          aliased_columns := mset s.aliased_columns alias_name
            (some (colsBefore s alias_name ∪ resolvedRefs s refs)) } := by
  unfold aliased_column colsBefore
  cases isCount with
  | true => simp
  | false =>
    cases refs with
    | nil => simp
    | cons r rs =>
      simp only [Bool.false_eq_true, false_or, reduceCtorEq, if_false]
      cases hc : mget s.aliased_columns alias_name with
      | none => simp [hc]
      | some o =>
        cases o with
        | none => simp [hc]
        | some prev => simp [hc]

/-- Fields of the scope other than the aliased-column map are untouched by
`aliased_column`. -/
theorem aliased_column_fields (isCount : Bool) (refs : List (String × String))
    (alias_name : String) (s s' : Scope)
    (h : aliased_column isCount refs alias_name s = some s') :
    s'.aliased_tables = s.aliased_tables ∧
    s'.subquery_aliases = s.subquery_aliases ∧
    s'.selected_table = s.selected_table := by
  rw [aliased_column_eq] at h
  split_ifs at h
  · cases h; exact ⟨rfl, rfl, rfl⟩
  · cases h; exact ⟨rfl, rfl, rfl⟩

/-- Claim C1: after `aliased_table` processes a table-alias node
`table AS alias` in a scope, the scope's aliased-tables map sends the
alias to the table, and every fully qualified column already recorded in
any aliased-columns entry whose `table` field equalled the alias now
appears with its `table` field rewritten to the table (the entry is the
image of the old set under the backfill rewrite, which is what every
later read of the in-place-mutated set members observes), while a
recorded column whose `table` field differs from the alias is left in
the entry unchanged. -/
theorem c1_aliased_table_backfill (s : Scope) (table_name aname k : String)
    (fs : Finset FqColumn) (h : mget s.aliased_columns k = some (some fs)) :
    mget (aliased_table table_name aname s).aliased_tables aname = some table_name ∧
    mget (aliased_table table_name aname s).aliased_columns k =
      some (some (fs.image (backfillFq aname table_name))) ∧
    (∀ fq ∈ fs, fq.table = aname →
      FqColumn.mk table_name fq.column ∈ fs.image (backfillFq aname table_name)) ∧
    (∀ fq ∈ fs, fq.table ≠ aname →
      fq ∈ fs.image (backfillFq aname table_name) ∧
      backfillFq aname table_name fq = fq) := by
  refine ⟨?_, ?_, ?_, ?_⟩
  · show mget (mset s.aliased_tables aname table_name) aname = some table_name
    exact mget_mset_self _ _ _
  · show mget (s.aliased_columns.map _) k = _
    rw [mget_map, h]
    rfl
  · intro fq hfq hft
    refine Finset.mem_image.mpr ⟨fq, hfq, ?_⟩
    simp [backfillFq, hft]
  · intro fq hfq hft
    have hbf : backfillFq aname table_name fq = fq := by simp [backfillFq, hft]
    exact ⟨Finset.mem_image.mpr ⟨fq, hfq, hbf⟩, hbf⟩

/-- Witness for C1 at a concrete scope: the column `r.amt` recorded under
alias `amt` before the table alias `rental AS r` is seen, together with
an unrelated column `q.z`. -/
theorem c1_aliased_table_backfill_witness :
    mget (Scope.mk [] [("amt", some {⟨"r", "amt"⟩, ⟨"q", "z"⟩})] none []).aliased_columns
        "amt" = some (some {⟨"r", "amt"⟩, ⟨"q", "z"⟩}) ∧
    (mget (aliased_table "rental" "r"
        (Scope.mk [] [("amt", some {⟨"r", "amt"⟩, ⟨"q", "z"⟩})] none [])).aliased_tables
        "r" = some "rental" ∧
     mget (aliased_table "rental" "r"
        (Scope.mk [] [("amt", some {⟨"r", "amt"⟩, ⟨"q", "z"⟩})] none [])).aliased_columns
        "amt" =
       some (some (({⟨"r", "amt"⟩, ⟨"q", "z"⟩} : Finset FqColumn).image
         (backfillFq "r" "rental"))) ∧
     (∀ fq ∈ ({⟨"r", "amt"⟩, ⟨"q", "z"⟩} : Finset FqColumn), fq.table = "r" →
       FqColumn.mk "rental" fq.column ∈
         ({⟨"r", "amt"⟩, ⟨"q", "z"⟩} : Finset FqColumn).image (backfillFq "r" "rental")) ∧
     (∀ fq ∈ ({⟨"r", "amt"⟩, ⟨"q", "z"⟩} : Finset FqColumn), fq.table ≠ "r" →
       fq ∈ ({⟨"r", "amt"⟩, ⟨"q", "z"⟩} : Finset FqColumn).image (backfillFq "r" "rental") ∧
       backfillFq "r" "rental" fq = fq)) :=
  ⟨by decide, c1_aliased_table_backfill _ "rental" "r" "amt" _ (by decide)⟩

/-- Claim C6: once an aliased-columns entry holds the `None` marker, no
later visit of the collector turns it into a set of resolvable columns:
a table-alias backfill skips it, a derived-table visit does not touch it,
and an aliased-column visit for the same name either writes the marker
again or raises (so no completed visit ever replaces the marker by a
set). -/
theorem c6_none_is_permanent (s : Scope) (a : String)
    (h : mget s.aliased_columns a = some none) :
    (∀ table_name aname,
      mget (aliased_table table_name aname s).aliased_columns a = some none) ∧
    (∀ isCount refs alias_name s',
      aliased_column isCount refs alias_name s = some s' →
      mget s'.aliased_columns a = some none) ∧
    (∀ alias_name subquery_id,
      mget (derived_table alias_name subquery_id s).aliased_columns a = some none) := by
  refine ⟨?_, ?_, ?_⟩
  · intro tn an
    show mget (s.aliased_columns.map _) a = some none
    rw [mget_map, h]
    rfl
  · intro isCount refs alias_name s' hs
    rw [aliased_column_eq] at hs
    by_cases hb : alias_name = a
    · subst hb
      split_ifs at hs with h1
      cases hs
      exact mget_mset_self _ _ _
    · split_ifs at hs with h1 h2
      · cases hs
        show mget (mset s.aliased_columns alias_name none) a = some none
        rw [mget_mset_of_ne _ _ _ _ hb]
        exact h
      · cases hs
        show mget (mset s.aliased_columns alias_name _) a = some none
        rw [mget_mset_of_ne _ _ _ _ hb]
        exact h
  · intro an sq
    exact h

/-- Witness for C6 at a concrete scope holding the marker for alias
`num` (as recorded for a count-style alias). -/
theorem c6_none_is_permanent_witness :
    mget (Scope.mk [] [("num", none)] none []).aliased_columns "num" = some none ∧
    ((∀ table_name aname,
       mget (aliased_table table_name aname
         (Scope.mk [] [("num", none)] none [])).aliased_columns "num" = some none) ∧
     (∀ isCount refs alias_name s',
       aliased_column isCount refs alias_name (Scope.mk [] [("num", none)] none []) =
         some s' → mget s'.aliased_columns "num" = some none) ∧
     (∀ alias_name subquery_id,
       mget (derived_table alias_name subquery_id
         (Scope.mk [] [("num", none)] none [])).aliased_columns "num" = some none)) :=
  ⟨by decide, c6_none_is_permanent _ "num" (by decide)⟩

/-- Counterexample to C3 as stated: for the second column-alias node of
`SELECT COUNT(*) AS x, t.a AS x FROM t`, the expression is not a count
and contains the reference `t.a`, so the claim requires a `FqColumn` to
be added under alias `x`; instead the visit hits the `None` marker left
by the count alias and raises an `AttributeError` (`.add` on `None`),
recording nothing at all — the composed run returns no scope. -/
theorem c3_counterexample :
    (aliased_column true [] "x" emptyScope).bind
      (aliased_column false [("t", "a")] "x") = none := by decide

/-- Claim C3 (amended): whenever an `aliased_column` visit completes
(which it fails to do exactly when references must be added to an entry
already holding the `None` marker), the entry for the alias holds the
`None` marker exactly when the expression is count-style or contains no
fully qualified column reference; otherwise the entry holds the
previously recorded columns together with one resolved `FqColumn` for
each reference found in the expression. -/
theorem c3_aliased_column_records (isCount : Bool) (refs : List (String × String))
    (alias_name : String) (s s' : Scope)
    (h : aliased_column isCount refs alias_name s = some s') :
    (mget s'.aliased_columns alias_name = some none ↔ (isCount = true ∨ refs = [])) ∧
    (isCount = false → refs ≠ [] →
      mget s'.aliased_columns alias_name =
        some (some (colsBefore s alias_name ∪ resolvedRefs s refs)) ∧
      ∀ rc ∈ refs, FqColumn.mk (resolveTable s rc.1) rc.2 ∈
        colsBefore s alias_name ∪ resolvedRefs s refs) := by
  rw [aliased_column_eq] at h
  split_ifs at h with h1 h2
  · cases h
    constructor
    · rw [mget_mset_self]
      simp [h1]
    · intro hic hrefs
      rcases h1 with h1 | h1
      · exact absurd h1 (by simp [hic])
      · exact absurd h1 hrefs
  · cases h
    constructor
    · rw [mget_mset_self]
      simp [h1]
    · intro hic hrefs
      refine ⟨mget_mset_self _ _ _, ?_⟩
      intro rc hrc
      refine Finset.mem_union_right _ ?_
      unfold resolvedRefs
      rw [List.mem_toFinset]
      exact List.mem_map.mpr ⟨rc, hrc, rfl⟩

/-- Witness for C3 (amended) at the column-alias node
`strftime(..., rental.rental_date) AS rental_year` of the test query, in
a fresh scope. -/
theorem c3_aliased_column_records_witness :
    aliased_column false [("rental", "rental_date")] "rental_year" emptyScope =
      some (Scope.mk [] [("rental_year", some {⟨"rental", "rental_date"⟩})] none []) ∧
    ((mget (Scope.mk [] [("rental_year", some {⟨"rental", "rental_date"⟩})] none
        []).aliased_columns "rental_year" = some none ↔
      (false = true ∨ ([("rental", "rental_date")] : List (String × String)) = [])) ∧
     (false = false → ([("rental", "rental_date")] : List (String × String)) ≠ [] →
       mget (Scope.mk [] [("rental_year", some {⟨"rental", "rental_date"⟩})] none
          []).aliased_columns "rental_year" =
         some (some (colsBefore emptyScope "rental_year" ∪
           resolvedRefs emptyScope [("rental", "rental_date")])) ∧
       ∀ rc ∈ ([("rental", "rental_date")] : List (String × String)),
         FqColumn.mk (resolveTable emptyScope rc.1) rc.2 ∈
           colsBefore emptyScope "rental_year" ∪
             resolvedRefs emptyScope [("rental", "rental_date")])) :=
  ⟨by decide,
   c3_aliased_column_records false [("rental", "rental_date")] "rental_year"
     emptyScope _ (by decide)⟩

theorem aliasScopeId_eq_none_iff (chain : List PNode) :
    aliasScopeId chain = none ↔ ∀ p ∈ chain, p.data ≠ "full_query" := by
  induction chain with
  | nil => simp [aliasScopeId]
  | cons p rest ih =>
    by_cases hp : p.data = "full_query"
    · simp [aliasScopeId, hp]
    · simp [aliasScopeId, hp, ih]

theorem aliasScopeId_append (pre : List PNode) (p : PNode) (post : List PNode)
    (hpre : ∀ q ∈ pre, q.data ≠ "full_query") (hp : p.data = "full_query") :
    aliasScopeId (pre ++ p :: post) = some p.id := by
  induction pre with
  | nil => simp [aliasScopeId, hp]
  | cons q rest ih =>
    have hq := hpre q (by simp)
    rw [List.cons_append]
    show (if q.data = "full_query" then some q.id else aliasScopeId (rest ++ p :: post)) = _
    rw [if_neg hq]
    exact ih (fun r hr => hpre r (by simp [hr]))

theorem mget_mset_msetdefault_of_ne {κ β : Type} [DecidableEq κ] (m : Map κ β)
    (sid sid' : κ) (d v : β) (h : sid ≠ sid') :
    mget (mset (msetdefault m sid d) sid v) sid' = mget m sid' := by
  rw [mget_mset_of_ne _ _ _ _ h, mget_msetdefault_of_ne _ _ _ _ h]

/-- Claim C4: the alias-scope lookup fails — the `RuntimeError`, an
internal error rather than one of the user-facing rejection types — if
and only if no ancestor on the node's parent chain is a "full_query"
node; and when a "full_query" ancestor exists, it returns the scope of
the nearest one, creating the registry entry for that scope id (with a
fresh `_QueryAliases`) exactly when it does not yet exist. -/
theorem c4_alias_scope_lookup (chain : List PNode) (reg : Map Nat Scope) :
    (aliasScope reg chain = none ↔ ∀ p ∈ chain, p.data ≠ "full_query") ∧
    (∀ pre p post, chain = pre ++ p :: post → p.data = "full_query" →
      (∀ q ∈ pre, q.data ≠ "full_query") →
      aliasScope reg chain = some (p.id, msetdefault reg p.id emptyScope) ∧
      mget (msetdefault reg p.id emptyScope) p.id =
        some ((mget reg p.id).getD emptyScope)) := by
  constructor
  · unfold aliasScope
    rw [Option.map_eq_none']
    exact aliasScopeId_eq_none_iff chain
  · intro pre p post hchain hp hpre
    subst hchain
    constructor
    · unfold aliasScope
      rw [aliasScopeId_append pre p post hpre hp]
      rfl
    · exact mget_msetdefault_self _ _ _

/-- Witness for C4 at a concrete parent chain: a node inside a WHERE
clause whose nearest wrapping query is the "full_query" node with id 3,
against an empty registry. -/
theorem c4_alias_scope_lookup_witness :
    (aliasScope [] [⟨"where_clause", 7⟩, ⟨"full_query", 3⟩] = none ↔
      ∀ p ∈ [PNode.mk "where_clause" 7, PNode.mk "full_query" 3],
        p.data ≠ "full_query") ∧
    (∀ pre p post,
      [PNode.mk "where_clause" 7, PNode.mk "full_query" 3] = pre ++ p :: post →
      p.data = "full_query" → (∀ q ∈ pre, q.data ≠ "full_query") →
      aliasScope [] [⟨"where_clause", 7⟩, ⟨"full_query", 3⟩] =
        some (p.id, msetdefault [] p.id emptyScope) ∧
      mget (msetdefault [] p.id emptyScope) p.id =
        some ((mget ([] : Map Nat Scope) p.id).getD emptyScope)) :=
  c4_alias_scope_lookup [⟨"where_clause", 7⟩, ⟨"full_query", 3⟩] []

/-- Claim C5: each alias-recording visitor (`aliased_table`,
`aliased_column`, `derived_table`) changes only the registry entry of
the scope id found by `_alias_scope` — the nearest wrapping "full_query"
ancestor of the visited node — so an alias recorded inside a subquery's
scope leaves every other scope's entry (in particular the parent's)
untouched, and vice versa; name resolution (`_resolve_table`) likewise
reads only that same scope's table-alias map by construction. -/
theorem c5_scope_isolation (chain : List PNode) (st st' : CState) (sid' : Nat)
    (hos : aliasScopeId chain ≠ some sid') :
    (∀ table_name aname,
      applyC (.tableOp chain table_name aname) st = some st' →
      mget st'.query_aliases sid' = mget st.query_aliases sid') ∧
    (∀ isCount refs alias_name,
      applyC (.columnOp chain isCount refs alias_name) st = some st' →
      mget st'.query_aliases sid' = mget st.query_aliases sid') ∧
    (∀ alias_name subquery_id,
      applyC (.derivedOp chain alias_name subquery_id) st = some st' →
      mget st'.query_aliases sid' = mget st.query_aliases sid') := by
  refine ⟨?_, ?_, ?_⟩
  · intro tn an h
    simp only [applyC, aliasScope] at h
    cases hsid : aliasScopeId chain with
    | none => rw [hsid] at h; cases h
    | some sid =>
      rw [hsid] at h
      simp only [Option.map_some'] at h
      cases h
      exact mget_mset_msetdefault_of_ne _ _ _ _ _ (fun he => hos (he ▸ hsid))
  · intro isCount refs alias_name h
    simp only [applyC, aliasScope] at h
    cases hsid : aliasScopeId chain with
    | none => rw [hsid] at h; cases h
    | some sid =>
      rw [hsid] at h
      simp only [Option.map_some', Option.some_bind] at h
      cases hac : aliased_column isCount refs alias_name
          ((mget (msetdefault st.query_aliases sid emptyScope) sid).getD emptyScope) with
      | none => rw [hac] at h; cases h
      | some sc =>
        rw [hac] at h
        simp only [Option.map_some'] at h
        cases h
        exact mget_mset_msetdefault_of_ne _ _ _ _ _ (fun he => hos (he ▸ hsid))
  · intro an sq h
    simp only [applyC, aliasScope] at h
    cases hsid : aliasScopeId chain with
    | none => rw [hsid] at h; cases h
    | some sid =>
      rw [hsid] at h
      simp only [Option.map_some'] at h
      cases h
      exact mget_mset_msetdefault_of_ne _ _ _ _ _ (fun he => hos (he ▸ hsid))

/-- Witness for C5: a table alias, an expression column alias and a
derived-table alias recorded by a node inside the subquery with scope id
9 leave the parent scope entry (id 3, already holding a scope with a
table alias) unchanged. -/
theorem c5_scope_isolation_witness :
    (aliasScopeId [⟨"derived_table", 12⟩, ⟨"full_query", 9⟩, ⟨"full_query", 3⟩] ≠
      some 3) ∧
    ((∀ table_name aname,
       applyC (.tableOp [⟨"derived_table", 12⟩, ⟨"full_query", 9⟩, ⟨"full_query", 3⟩]
           table_name aname)
         ⟨[(3, Scope.mk [("r", "rental")] [] none [])], none⟩ = some
           ⟨[(3, Scope.mk [("r", "rental")] [] none []),
             (9, aliased_table "t" "a" emptyScope)], none⟩ →
       mget (⟨[(3, Scope.mk [("r", "rental")] [] none []),
           (9, aliased_table "t" "a" emptyScope)], none⟩ :
           CState).query_aliases 3 =
         mget (⟨[(3, Scope.mk [("r", "rental")] [] none [])], none⟩ :
           CState).query_aliases 3) ∧
     (∀ isCount refs alias_name,
       applyC (.columnOp [⟨"derived_table", 12⟩, ⟨"full_query", 9⟩, ⟨"full_query", 3⟩]
           isCount refs alias_name)
         ⟨[(3, Scope.mk [("r", "rental")] [] none [])], none⟩ = some
           ⟨[(3, Scope.mk [("r", "rental")] [] none []),
             (9, aliased_table "t" "a" emptyScope)], none⟩ →
       mget (⟨[(3, Scope.mk [("r", "rental")] [] none []),
           (9, aliased_table "t" "a" emptyScope)], none⟩ :
           CState).query_aliases 3 =
         mget (⟨[(3, Scope.mk [("r", "rental")] [] none [])], none⟩ :
           CState).query_aliases 3) ∧
     (∀ alias_name subquery_id,
       applyC (.derivedOp [⟨"derived_table", 12⟩, ⟨"full_query", 9⟩, ⟨"full_query", 3⟩]
           alias_name subquery_id)
         ⟨[(3, Scope.mk [("r", "rental")] [] none [])], none⟩ = some
           ⟨[(3, Scope.mk [("r", "rental")] [] none []),
             (9, aliased_table "t" "a" emptyScope)], none⟩ →
       mget (⟨[(3, Scope.mk [("r", "rental")] [] none []),
           (9, aliased_table "t" "a" emptyScope)], none⟩ :
           CState).query_aliases 3 =
         mget (⟨[(3, Scope.mk [("r", "rental")] [] none [])], none⟩ :
           CState).query_aliases 3)) :=
  ⟨by decide,
   c5_scope_isolation [⟨"derived_table", 12⟩, ⟨"full_query", 9⟩, ⟨"full_query", 3⟩]
     ⟨[(3, Scope.mk [("r", "rental")] [] none [])], none⟩
     ⟨[(3, Scope.mk [("r", "rental")] [] none []),
       (9, aliased_table "t" "a" emptyScope)], none⟩ 3 (by decide)⟩

/-- Claim C10: no collector visit discards previously recorded aliases.
For every visitor event that completes, every scope already present in
the registry is still present afterwards, with every key of its
table-alias map and of its subquery-alias map still bound; and since the
registry entry is created get-or-create (both in `full_query` and in
`_alias_scope`), visiting a query-boundary node whose scope already
holds aliases leaves the collector state entirely unchanged. -/
theorem c10_no_discard (op : COp) (st st' : CState) (h : applyC op st = some st') :
    (∀ sid sc, mget st.query_aliases sid = some sc →
      ∃ sc', mget st'.query_aliases sid = some sc' ∧
        (∀ k, (mget sc.aliased_tables k).isSome → (mget sc'.aliased_tables k).isSome) ∧
        (∀ k, (mget sc.subquery_aliases k).isSome →
          (mget sc'.subquery_aliases k).isSome)) ∧
    (∀ sid, op = COp.fullQuery sid → (mget st.query_aliases sid).isSome → st' = st) := by
  cases op with
  | tableOp chain tn an =>
    simp only [applyC, aliasScope] at h
    cases hsid : aliasScopeId chain with
    | none => rw [hsid] at h; cases h
    | some sid0 =>
      rw [hsid] at h
      simp only [Option.map_some'] at h
      cases h
      refine ⟨?_, ?_⟩
      · intro sid sc hsc
        by_cases he : sid0 = sid
        · subst he
          have hM : (mget (msetdefault st.query_aliases sid0 emptyScope) sid0).getD
              emptyScope = sc := by
            rw [mget_msetdefault_self, hsc]
            rfl
          refine ⟨aliased_table tn an sc, ?_, ?_, ?_⟩
          · show mget (mset _ sid0 _) sid0 = _
            rw [mget_mset_self, hM]
          · intro k hk
            show (mget (mset sc.aliased_tables an tn) k).isSome
            exact mget_isSome_mset _ _ _ _ hk
          · intro k hk
            exact hk
        · refine ⟨sc, ?_, fun k hk => hk, fun k hk => hk⟩
          show mget (mset (msetdefault _ _ _) _ _) sid = some sc
          rw [mget_mset_msetdefault_of_ne _ _ _ _ _ he]
          exact hsc
      · intro sid heq
        cases heq
  | columnOp chain isCount refs alias_name =>
    simp only [applyC, aliasScope] at h
    cases hsid : aliasScopeId chain with
    | none => rw [hsid] at h; cases h
    | some sid0 =>
      rw [hsid] at h
      simp only [Option.map_some', Option.some_bind] at h
      cases hac : aliased_column isCount refs alias_name
          ((mget (msetdefault st.query_aliases sid0 emptyScope) sid0).getD emptyScope) with
      | none => rw [hac] at h; cases h
      | some cres =>
        rw [hac] at h
        simp only [Option.map_some'] at h
        cases h
        refine ⟨?_, ?_⟩
        · intro sid sc hsc
          by_cases he : sid0 = sid
          · subst he
            have hM : (mget (msetdefault st.query_aliases sid0 emptyScope) sid0).getD
                emptyScope = sc := by
              rw [mget_msetdefault_self, hsc]
              rfl
            rw [hM] at hac
            obtain ⟨ht, hsq, -⟩ := aliased_column_fields _ _ _ _ _ hac
            refine ⟨cres, ?_, ?_, ?_⟩
            · show mget (mset _ sid0 _) sid0 = _
              rw [mget_mset_self]
            · intro k hk
              rw [ht]
              exact hk
            · intro k hk
              rw [hsq]
              exact hk
          · refine ⟨sc, ?_, fun k hk => hk, fun k hk => hk⟩
            show mget (mset (msetdefault _ _ _) _ _) sid = some sc
            rw [mget_mset_msetdefault_of_ne _ _ _ _ _ he]
            exact hsc
        · intro sid heq
          cases heq
  | derivedOp chain alias_name subquery_id =>
    simp only [applyC, aliasScope] at h
    cases hsid : aliasScopeId chain with
    | none => rw [hsid] at h; cases h
    | some sid0 =>
      rw [hsid] at h
      simp only [Option.map_some'] at h
      cases h
      refine ⟨?_, ?_⟩
      · intro sid sc hsc
        by_cases he : sid0 = sid
        · subst he
          have hM : (mget (msetdefault st.query_aliases sid0 emptyScope) sid0).getD
              emptyScope = sc := by
            rw [mget_msetdefault_self, hsc]
            rfl
          refine ⟨derived_table alias_name subquery_id sc, ?_, ?_, ?_⟩
          · show mget (mset _ sid0 _) sid0 = _
            rw [mget_mset_self, hM]
          · intro k hk
            exact hk
          · intro k hk
            show (mget (mset sc.subquery_aliases alias_name subquery_id) k).isSome
            exact mget_isSome_mset _ _ _ _ hk
        · refine ⟨sc, ?_, fun k hk => hk, fun k hk => hk⟩
          show mget (mset (msetdefault _ _ _) _ _) sid = some sc
          rw [mget_mset_msetdefault_of_ne _ _ _ _ _ he]
          exact hsc
      · intro sid heq
        cases heq
  | fullQuery sid0 =>
    simp only [applyC] at h
    cases h
    refine ⟨?_, ?_⟩
    · intro sid sc hsc
      refine ⟨sc, ?_, fun k hk => hk, fun k hk => hk⟩
      by_cases he : sid0 = sid
      · subst he
        rw [mget_msetdefault_self, hsc]
        rfl
      · rw [mget_msetdefault_of_ne _ _ _ _ he]
        exact hsc
    · intro sid heq hpres
      cases heq
      have hreg : msetdefault st.query_aliases sid0 emptyScope = st.query_aliases :=
        msetdefault_of_isSome _ _ _ hpres
      cases st with
      | mk reg sel =>
        simp only at hreg
        simp [hreg]
  | selTable tn =>
    simp only [applyC] at h
    cases h
    refine ⟨?_, ?_⟩
    · intro sid sc hsc
      exact ⟨sc, hsc, fun k hk => hk, fun k hk => hk⟩
    · intro sid heq
      cases heq

/-- Witness for C10: re-visiting the query-boundary node of scope 3 after
a table alias was already recorded there leaves the collector state
unchanged, and the recorded alias survives. -/
theorem c10_no_discard_witness :
    applyC (COp.fullQuery 3)
        ⟨[(3, Scope.mk [("r", "rental")] [] none [])], none⟩ =
      some ⟨[(3, Scope.mk [("r", "rental")] [] none [])], none⟩ ∧
    ((∀ sid sc,
       mget (⟨[(3, Scope.mk [("r", "rental")] [] none [])], none⟩ :
         CState).query_aliases sid = some sc →
       ∃ sc', mget (⟨[(3, Scope.mk [("r", "rental")] [] none [])], none⟩ :
           CState).query_aliases sid = some sc' ∧
         (∀ k, (mget sc.aliased_tables k).isSome → (mget sc'.aliased_tables k).isSome) ∧
         (∀ k, (mget sc.subquery_aliases k).isSome →
           (mget sc'.subquery_aliases k).isSome)) ∧
     (∀ sid, COp.fullQuery 3 = COp.fullQuery sid →
       (mget (⟨[(3, Scope.mk [("r", "rental")] [] none [])], none⟩ :
         CState).query_aliases sid).isSome →
       (⟨[(3, Scope.mk [("r", "rental")] [] none [])], none⟩ : CState) =
         ⟨[(3, Scope.mk [("r", "rental")] [] none [])], none⟩)) :=
  ⟨by decide,
   c10_no_discard (COp.fullQuery 3)
     ⟨[(3, Scope.mk [("r", "rental")] [] none [])], none⟩
     ⟨[(3, Scope.mk [("r", "rental")] [] none [])], none⟩ (by decide)⟩

/-- Counterexample to C7 as stated: in the scope built by visiting
`b AS a` and then `c AS b` (so the table-alias map sends a to b and b to
c), the column alias `a.x AS y` stores the column with table `b` — the
result of one lookup — although transitive resolution through the whole
chain known at that point gives `c`; the column `(c, x)` the claim
requires is not in the stored set. -/
theorem c7_counterexample :
    (aliased_column false [("a", "x")] "y"
        (aliased_table "c" "b" (aliased_table "b" "a" emptyScope))).map
      (fun s => mget s.aliased_columns "y") =
      some (some (some {FqColumn.mk "b" "x"})) ∧
    resolveTableSpec
      (aliased_table "c" "b" (aliased_table "b" "a" emptyScope)).aliased_tables
      2 "a" = "c" ∧
    FqColumn.mk "c" "x" ∉ ({FqColumn.mk "b" "x"} : Finset FqColumn) := by decide

/-- Claim C7 (amended): when `aliased_column` records a fully qualified
column, its table part is resolved by a single lookup in the enclosing
scope's table-alias map — one step of any alias-of-alias chain, not the
transitive closure — before the `FqColumn` is stored; a longer chain is
collapsed only by later backfills. -/
theorem c7_single_step_resolution (s : Scope) (refs : List (String × String))
    (alias_name : String) (s' : Scope)
    (h : aliased_column false refs alias_name s = some s')
    (rc : String × String) (hrc : rc ∈ refs) :
    ∃ fs, mget s'.aliased_columns alias_name = some (some fs) ∧
      FqColumn.mk ((mget s.aliased_tables rc.1).getD rc.1) rc.2 ∈ fs := by
  have hne : refs ≠ [] := fun he => by simp [he] at hrc
  rw [aliased_column_eq] at h
  rw [if_neg (by simp [hne])] at h
  split_ifs at h with h2
  cases h
  refine ⟨colsBefore s alias_name ∪ resolvedRefs s refs, mget_mset_self _ _ _, ?_⟩
  refine Finset.mem_union_right _ ?_
  unfold resolvedRefs
  rw [List.mem_toFinset]
  exact List.mem_map.mpr ⟨rc, hrc, rfl⟩

/-- Witness for C7 (amended) at the counterexample's own input: the
stored column for `a.x AS y` uses the one-step resolution of `a`,
namely `b`. -/
theorem c7_single_step_resolution_witness :
    aliased_column false [("a", "x")] "y"
        (aliased_table "c" "b" (aliased_table "b" "a" emptyScope)) =
      some (Scope.mk [("a", "b"), ("b", "c")] [("y", some {⟨"b", "x"⟩})] none []) ∧
    ("a", "x") ∈ ([("a", "x")] : List (String × String)) ∧
    (∃ fs, mget (Scope.mk [("a", "b"), ("b", "c")] [("y", some {⟨"b", "x"⟩})] none
        []).aliased_columns "y" = some (some fs) ∧
      FqColumn.mk ((mget (aliased_table "c" "b"
          (aliased_table "b" "a" emptyScope)).aliased_tables "a").getD "a") "x" ∈ fs) :=
  ⟨by decide, by decide,
   c7_single_step_resolution _ [("a", "x")] "y" _ (by decide) ("a", "x") (by decide)⟩

/-- Claim C8, evaluated at the failing input (the `selected_table` node
for table t1 in a query whose scope id is 0): `selected_table` assigns
`self._selected_table` on the collector object, shared across all
scopes, while the `_selected_table` field of the scope's own
`_QueryAliases` — the per-scope `defaultTable` the spec describes — is
never written by any visitor and remains `None`. -/
theorem c8_selected_table_not_scoped :
    applyC (COp.selTable "t1") ⟨[(0, emptyScope)], none⟩ =
      some ⟨[(0, emptyScope)], some "t1"⟩ ∧
    mget ((⟨[(0, emptyScope)], some "t1"⟩ : CState).query_aliases) 0 =
      some emptyScope ∧
    emptyScope.selected_table = none := by decide

/-- Claim C9: with a non-empty collection of constraint validators, a
query is accepted exactly when at least one validator's full rule set
accepts every identifier and structural element the query touches; in
particular a query rejected by some validators but fully accepted by one
other validator is accepted. -/
theorem c9_any_validator {α : Type} (vs : List (ConstraintValidator α))
    (touched : List α) (hne : vs ≠ []) :
    (bifrostValidate vs touched = true ↔
      ∃ v ∈ vs, validatorAccepts v touched = true) ∧
    (∀ v ∈ vs, validatorAccepts v touched = true →
      bifrostValidate vs touched = true) := by
  constructor
  · simp [bifrostValidate, List.any_eq_true]
  · intro v hv hacc
    simp only [bifrostValidate, List.any_eq_true]
    exact ⟨v, hv, hacc⟩

/-- Witness for C9: a query touching one column is rejected by the first
validator and fully accepted by the second, hence accepted. -/
theorem c9_any_validator_witness :
    ([cvDenyAll, cvAllowAll] : List (ConstraintValidator String)) ≠ [] ∧
    ((bifrostValidate [cvDenyAll, cvAllowAll] ["customer.customer_id"] = true ↔
       ∃ v ∈ [cvDenyAll, cvAllowAll],
         validatorAccepts v ["customer.customer_id"] = true) ∧
     (∀ v ∈ [cvDenyAll, cvAllowAll],
       validatorAccepts v ["customer.customer_id"] = true →
       bifrostValidate [cvDenyAll, cvAllowAll] ["customer.customer_id"] = true)) :=
  ⟨by simp, c9_any_validator [cvDenyAll, cvAllowAll] ["customer.customer_id"] (by simp)⟩

theorem toFinset_map_eq {α β : Type} [DecidableEq α] [DecidableEq β] (f : α → β)
    (l : List α) : (l.map f).toFinset = l.toFinset.image f := by
  induction l with
  | nil => simp
  | cons a rest ih => simp [ih]

theorem Scope.ext_of_fields (a b : Scope)
    (h1 : a.aliased_tables = b.aliased_tables)
    (h2 : a.aliased_columns = b.aliased_columns)
    (h3 : a.selected_table = b.selected_table)
    (h4 : a.subquery_aliases = b.subquery_aliases) : a = b := by
  cases a
  cases b
  simp only at h1 h2 h3 h4
  subst h1 h2 h3 h4
  rfl

theorem cols_mget_map (m : Map String (Option (Finset FqColumn)))
    (bf : FqColumn → FqColumn) (k : String) :
    mget (m.map (fun kv => (kv.1, kv.2.map (Finset.image bf)))) k =
      (mget m k).map (fun e => e.map (Finset.image bf)) :=
  mget_map m (fun e => e.map (Finset.image bf)) k

/-- One step of `_resolve_table` taken after the table alias has been
recorded agrees with resolving first and backfilling afterwards,
provided the alias is not yet bound and no authoritative table name
recorded so far coincides with the alias text. -/
theorem resolveTable_after_aliased_table (s : Scope) (table_name aname : String)
    (h1 : mget s.aliased_tables aname = none)
    (h2 : ∀ kv ∈ s.aliased_tables, kv.2 ≠ aname) (t c : String) :
    FqColumn.mk (resolveTable (aliased_table table_name aname s) t) c =
      backfillFq aname table_name (FqColumn.mk (resolveTable s t) c) := by
  by_cases ht : t = aname
  · subst ht
    show FqColumn.mk ((mget (mset s.aliased_tables t table_name) t).getD t) c = _
    rw [mget_mset_self]
    show _ = backfillFq t table_name (FqColumn.mk ((mget s.aliased_tables t).getD t) c)
    rw [h1]
    simp [backfillFq]
  · show FqColumn.mk ((mget (mset s.aliased_tables aname table_name) t).getD t) c =
      backfillFq aname table_name (FqColumn.mk ((mget s.aliased_tables t).getD t) c)
    rw [mget_mset_of_ne _ _ _ _ (fun he => ht he.symm)]
    cases hv : mget s.aliased_tables t with
    | none => simp [backfillFq, ht]
    | some v =>
      have hvne : v ≠ aname := h2 (t, v) (mget_mem hv)
      simp [backfillFq, hvne]

theorem resolvedRefs_after_aliased_table (s : Scope) (table_name aname : String)
    (refs : List (String × String))
    (h1 : mget s.aliased_tables aname = none)
    (h2 : ∀ kv ∈ s.aliased_tables, kv.2 ≠ aname) :
    resolvedRefs (aliased_table table_name aname s) refs =
      (resolvedRefs s refs).image (backfillFq aname table_name) := by
  unfold resolvedRefs
  rw [← toFinset_map_eq, List.map_map]
  have hfun : (fun rc : String × String =>
      FqColumn.mk (resolveTable (aliased_table table_name aname s) rc.1) rc.2) =
      (backfillFq aname table_name ∘
        fun rc : String × String => FqColumn.mk (resolveTable s rc.1) rc.2) :=
    funext (fun rc => resolveTable_after_aliased_table s table_name aname h1 h2 rc.1 rc.2)
  rw [hfun]

theorem colsBefore_aliased_table (s : Scope) (table_name aname a : String) :
    colsBefore (aliased_table table_name aname s) a =
      (colsBefore s a).image (backfillFq aname table_name) := by
  unfold colsBefore
  simp only [aliased_table]
  rw [cols_mget_map]
  cases hc : mget s.aliased_columns a with
  | none => simp
  | some e =>
    cases e with
    | none => simp
    | some fs => simp

theorem cols_map_mset (m : Map String (Option (Finset FqColumn)))
    (bf : FqColumn → FqColumn) (k : String) (v : Option (Finset FqColumn)) :
    (mset m k v).map (fun kv => (kv.1, kv.2.map (Finset.image bf))) =
      mset (m.map (fun kv => (kv.1, kv.2.map (Finset.image bf)))) k
        (v.map (Finset.image bf)) :=
  map_mset m (fun e => e.map (Finset.image bf)) k v

/-- Counterexample to C2 as stated: in the scope of
`SELECT a.x + b.z AS y FROM a AS b JOIN t AS a`, after the first FROM
item `a AS b` is recorded (a real table named like the later alias), the
table-alias node T = `t AS a` and the column-alias node C =
`a.x + b.z AS y` — whose expression references a column through T's
alias `a` — do not commute: visiting T first stores the pair of columns
(t, x) and (a, z) under y, while visiting C first stores the columns
unresolved and the later backfill rewrites both of them, leaving
(t, x) and (t, z). -/
theorem c2_counterexample :
    aliased_column false [("a", "x"), ("b", "z")] "y"
        (aliased_table "t" "a" (aliased_table "a" "b" emptyScope)) ≠
      (aliased_column false [("a", "x"), ("b", "z")] "y"
        (aliased_table "a" "b" emptyScope)).map (aliased_table "t" "a") := by decide

/-- Claim C2 (amended): visiting the table-alias node and the
column-alias node in either order yields the same scope, provided the
table alias is not already bound in the scope's table-alias map and no
authoritative table name recorded there coincides with the alias text
(the counterexample shows order can matter when a real table's name
equals the alias). -/
theorem c2_order_independent (s : Scope) (table_name aname : String)
    (isCount : Bool) (refs : List (String × String)) (alias_name : String)
    (h1 : mget s.aliased_tables aname = none)
    (h2 : ∀ kv ∈ s.aliased_tables, kv.2 ≠ aname) :
    aliased_column isCount refs alias_name (aliased_table table_name aname s) =
      (aliased_column isCount refs alias_name s).map (aliased_table table_name aname) := by
  rw [aliased_column_eq, aliased_column_eq]
  by_cases hc1 : isCount = true ∨ refs = []
  · rw [if_pos hc1, if_pos hc1, Option.map_some']
    refine congrArg some (Scope.ext_of_fields _ _ rfl ?_ rfl rfl)
    simp only [aliased_table]
    rw [cols_map_mset]
    rfl
  · have hcond : (mget (aliased_table table_name aname s).aliased_columns alias_name =
        some none) ↔ (mget s.aliased_columns alias_name = some none) := by
      simp only [aliased_table]
      rw [cols_mget_map]
      cases hc : mget s.aliased_columns alias_name with
      | none => simp
      | some e =>
        cases e with
        | none => simp
        | some fs => simp
    by_cases hc2 : mget s.aliased_columns alias_name = some none
    · rw [if_neg hc1, if_neg hc1, if_pos (hcond.mpr hc2), if_pos hc2]
      rfl
    · rw [if_neg hc1, if_neg hc1, if_neg (fun hx => hc2 (hcond.mp hx)), if_neg hc2,
        Option.map_some']
      refine congrArg some (Scope.ext_of_fields _ _ rfl ?_ rfl rfl)
      rw [colsBefore_aliased_table,
        resolvedRefs_after_aliased_table s table_name aname refs h1 h2,
        ← Finset.image_union]
      simp only [aliased_table]
      rw [cols_map_mset]
      rfl

/-- Witness for C2 (amended): the alias `r` of `rental AS r` is unbound
in a scope already holding the unrelated table alias `i AS inventory`,
whose authoritative name is not `r`; recording `r.rental_date AS ry`
before or after the table alias gives the same scope. -/
theorem c2_order_independent_witness :
    mget (Scope.mk [("i", "inventory")] [] none []).aliased_tables "r" = none ∧
    (∀ kv ∈ (Scope.mk [("i", "inventory")] [] none []).aliased_tables,
      kv.2 ≠ "r") ∧
    aliased_column false [("r", "rental_date")] "ry"
        (aliased_table "rental" "r" (Scope.mk [("i", "inventory")] [] none [])) =
      (aliased_column false [("r", "rental_date")] "ry"
        (Scope.mk [("i", "inventory")] [] none [])).map (aliased_table "rental" "r") :=
  ⟨by decide, by decide,
   c2_order_independent (Scope.mk [("i", "inventory")] [] none []) "rental" "r"
     false [("r", "rental_date")] "ry" (by decide) (by decide)⟩
